import Mathlib

/-
  Verification of the ShutdownAt application core (src/40_SRC/shutdown_at.py).

  Shallow embedding conventions:
  - Python strings are modelled as `List Char`; string comparison compares
    code points via `Char.toNat`.
  - Characters are modelled at two granularities: the decimal (ASCII) digit
    check `Char.isDigit`, enough for the claims framed over decimal digits,
    and `pyIsDigit`, which additionally covers the superscript and subscript
    digit characters that Python `str.isdigit` accepts but `int()` rejects.
  - `int()` on a decimal digit string is modelled by `parseNat`; the variant
    `pyInt?` returns `Option Nat`, with `none` modelling the `ValueError`
    that `int()` raises on any other argument.
  - The tick callback `check_time` is modelled as a step function on an
    explicit scheduler state; the unconditional `self.root.after(1000, ...)`
    call at its end is recorded in the `rescheduled` field of the outcome.
  - The side-effecting `shutdown` method is modelled as a function of the
    environment (does the .bat file exist, do the external commands succeed)
    returning the ordered list of commands it invokes together with a flag
    recording whether an exception escaped the method.
-/

namespace ShutdownAt

/-- Python string comparison `a < b`: lexicographic on code points.
A strict prefix is smaller than the longer string. -/
def pyStrLt : List Char → List Char → Bool
  | [], [] => false
  | [], _ :: _ => true
  | _ :: _, [] => false
  | a :: as, b :: bs =>
    if a.toNat < b.toNat then true
    else if b.toNat < a.toNat then false
    else pyStrLt as bs

/-- Python string comparison `a >= b`, i.e. `not (a < b)` for the total order. -/
def pyStrGe (a b : List Char) : Bool := !pyStrLt a b

/-- Python `s.split(".")`: the list of maximal dot-free segments of `s`;
always non-empty (`"".split(".") == [""]`). -/
def splitDot : List Char → List (List Char)
  | [] => [[]]
  | c :: cs =>
    match splitDot cs with
    | [] => [[]]
    | p :: ps => if c = '.' then [] :: p :: ps else (c :: p) :: ps

/-- Inverse of `splitDot`: rejoin segments with a dot between them. -/
def joinDot : List (List Char) → List Char
  | [] => []
  | [p] => p
  | p :: ps => p ++ '.' :: joinDot ps

/-- Python `s.isdigit()` restricted to the decimal (ASCII) digit class:
non-empty and every character a decimal digit.  The fuller granularity of
`str.isdigit`, which also accepts superscript and subscript digit
characters, is `pyIsDigitStr` below. -/
def isdigitStr (s : List Char) : Bool := !s.isEmpty && s.all Char.isDigit

/-- Value of a decimal digit string, as computed by Python `int()` on a string
of decimal digits. -/
def parseNat (s : List Char) : Nat := s.foldl (fun a c => 10 * a + (c.toNat - 48)) 0

/-- Python `int()`: defined (`some`) exactly on non-empty strings of decimal
digits, with `none` modelling the `ValueError` raised otherwise — in
particular on superscript or subscript digit characters, which pass
`str.isdigit` but are not parseable by `int()`. -/
def pyInt? (s : List Char) : Option Nat :=
  if isdigitStr s then some (parseNat s) else none

/-- Python `str.isdigit` per character, on the modelled character universe:
the decimal digits plus the superscript and subscript digit characters
(U+00B9 U+00B2 U+00B3, U+2070, U+2074 to U+2079, U+2080 to U+2089), which
have the Unicode property Numeric_Type=Digit, so `str.isdigit` accepts them,
but are not decimal digits, so `int()` raises `ValueError` on them.
Decimal digits of non-Latin scripts (accepted by both `str.isdigit` and
`int()`) are outside the modelled universe. -/
def pyIsDigit (c : Char) : Bool :=
  c.isDigit || c.toNat == 0xB9 || c.toNat == 0xB2 || c.toNat == 0xB3 ||
    c.toNat == 0x2070 || (0x2074 ≤ c.toNat && c.toNat ≤ 0x2079) ||
    (0x2080 ≤ c.toNat && c.toNat ≤ 0x2089)

/-- Python `s.isdigit()` at the `pyIsDigit` granularity: non-empty and every
character accepted by `str.isdigit`. -/
def pyIsDigitStr (s : List Char) : Bool := !s.isEmpty && s.all pyIsDigit

/-- `ShutdownApp.is_valid_time` (shutdown_at.py lines 188-216): split on the
dot, require exactly two all-digit parts, then require hour in [0,23] and
minute in [0,59]. -/
def is_valid_time (i_time : List Char) : Bool :=
  match splitDot i_time with
  | [p0, p1] =>
    if !(isdigitStr p0 && isdigitStr p1) then false
    else
      let l_hour := parseNat p0
      let l_minute := parseNat p1
      decide (0 ≤ l_hour) && decide (l_hour ≤ 23) &&
        decide (0 ≤ l_minute) && decide (l_minute ≤ 59)
  | _ => false

/-- `ShutdownApp.is_valid_time` at the `pyIsDigit` character granularity and
with the `int()` calls kept fallible: the digit guard is the `isdigit` of the
code (`pyIsDigitStr`), while `int()` (`pyInt?`) parses only decimal digit
strings; the `.error` branch models an uncaught `ValueError` escaping the
function. -/
def is_valid_time_checked (i_time : List Char) : Except String Bool :=
  match splitDot i_time with
  | [p0, p1] =>
    if !(pyIsDigitStr p0 && pyIsDigitStr p1) then .ok false
    else
      match pyInt? p0, pyInt? p1 with
      | some l_hour, some l_minute =>
        .ok (decide (0 ≤ l_hour) && decide (l_hour ≤ 23) &&
          decide (0 ≤ l_minute) && decide (l_minute ≤ 59))
      | _, _ => .error "ValueError"
  | _ => .ok false

/-- Python `f"{n:02d}"` for the two-digit fields the program formats
(`n < 100` in every use): tens digit then units digit. -/
def fmt02 (n : Nat) : List Char := [Nat.digitChar (n / 10), Nat.digitChar (n % 10)]

/-- `ShutdownApp.get_two_minutes_before` (shutdown_at.py lines 489-518):
parse "H.M", subtract two minutes, borrow from the hour when the minute goes
negative, wrap hour -1 to 23, format zero-padded.  Total here; the Python
function is only called on strings accepted by `is_valid_time`. -/
def get_two_minutes_before (i_time : List Char) : List Char :=
  let l_time_parts := splitDot i_time
  let l_hour : Int := parseNat (l_time_parts.getD 0 [])
  let l_minute : Int := (parseNat (l_time_parts.getD 1 []) : Int) - 2
  let l_minute2 : Int := if l_minute < 0 then l_minute + 60 else l_minute
  let l_hour2 : Int := if l_minute < 0 then l_hour - 1 else l_hour
  let l_hour3 : Int := if l_hour2 < 0 then 23 else l_hour2
  fmt02 l_hour3.toNat ++ '.' :: fmt02 l_minute2.toNat

/-- A time of day at the HH.MM granularity of the application. -/
structure TimeOfDay where
  hour : Nat
  minute : Nat
deriving DecidableEq

/-- The two fields are in range. -/
def TimeOfDay.valid (t : TimeOfDay) : Prop := t.hour ≤ 23 ∧ t.minute ≤ 59

instance (t : TimeOfDay) : Decidable t.valid := by
  unfold TimeOfDay.valid; infer_instance

/-- Zero-padded rendering "HH.MM", as produced by `time.strftime("%H.%M")`
for the current time and by the f-string in `get_two_minutes_before`. -/
def fmtTime (t : TimeOfDay) : List Char := fmt02 t.hour ++ '.' :: fmt02 t.minute

/-- Modelled from the spec: `TimeMath.minusMinutes(t, n)` — subtract `n`
minutes from `t`, wrapping within a single day.  The source repository only
implements the `n = 2` instance (`get_two_minutes_before`); the general
operation exists only in the spec.  The per-step description of the spec
("if resulting minute < 0, add 60 and decrement hour; if resulting hour < 0,
wrap to 23") is applied as often as needed, i.e. total-minutes arithmetic
modulo one day (1440 minutes), which the words "wraps within a single day"
and the round-trip property for all `n < 1440` of the spec require. -/
def minusMinutes (t : TimeOfDay) (n : Nat) : TimeOfDay :=
  let total := (t.hour * 60 + t.minute + (1440 - n % 1440)) % 1440
  ⟨total / 60, total % 60⟩

/-- The mutable fields of `ShutdownApp` that `check_time` reads and writes:
`self.shutdown_time` (the raw validated user input) and `self.warning_shown`. -/
structure SchedState where
  shutdown_time : List Char
  warning_shown : Bool
deriving DecidableEq

/-- What a single tick did. -/
inductive TickEvent where
  /-- The branch `l_current_time >= self.shutdown_time`: `self.shutdown()`
  was invoked (the power action). -/
  | fired
  /-- The warning branch: `mb.showwarning` was invoked. -/
  | warned
  /-- Neither branch ran. -/
  | quiet
deriving DecidableEq

/-- Result of one tick: the event, the state afterwards, and whether the tick
re-registered itself (`self.root.after(1000, self.check_time)`). -/
structure TickOutcome where
  event : TickEvent
  state : SchedState
  rescheduled : Bool
deriving DecidableEq

/-- One execution of `ShutdownApp.check_time` (shutdown_at.py lines 455-485)
with the current wall-clock "HH.MM" string passed explicitly.  The `after`
call at the end of the method is unconditional, hence `rescheduled := true`
in every branch. -/
def check_time_step (st : SchedState) (l_current_time : List Char) : TickOutcome :=
  if pyStrGe l_current_time st.shutdown_time then
    ⟨TickEvent.fired, st, true⟩
  else if l_current_time = get_two_minutes_before st.shutdown_time ∧
      st.warning_shown = false then
    ⟨TickEvent.warned, { st with warning_shown := true }, true⟩
  else
    ⟨TickEvent.quiet, st, true⟩

/-- Run `check_time` once per entry of `currents` (the sampled clock strings),
threading the state; returns the event trace and the final state. -/
def run_ticks : SchedState → List (List Char) → List TickEvent × SchedState
  | st, [] => ([], st)
  | st, c :: cs =>
    let o := check_time_step st c
    let r := run_ticks o.state cs
    (o.event :: r.1, r.2)

/-- Environment of `ShutdownApp.shutdown`: existence of the configured .bat
file and exit status of each external command it may launch. -/
structure PowerEnv where
  /-- `os.path.exists(SHUTDOWN_BAT_PATH)` -/
  bat_exists : Bool
  /-- the `subprocess.run([SHUTDOWN_BAT_PATH], ...)` invocation exits 0 -/
  bat_run_ok : Bool
  /-- the `subprocess.run(["shutdown", "/s", "/t", "0"], ...)` fallback exits 0 -/
  fallback_ok : Bool
  /-- the `os.system(HIBERNATE_COMMAND)` call succeeds (status is ignored) -/
  hibernate_ok : Bool
deriving DecidableEq

/-- An external command the `shutdown` method can launch. -/
inductive Cmd where
  /-- the configured primary .bat file -/
  | runBat
  /-- the OS-native `shutdown /s /t 0` fallback -/
  | runFallback
  /-- the OS-native hibernate command -/
  | runHibernate
deriving DecidableEq

/-- Result of one `shutdown()` call: the commands invoked, in order, and
whether an exception escaped the method. -/
structure ShutdownResult where
  invoked : List Cmd
  raised : Bool
deriving DecidableEq

/-- `ShutdownApp.shutdown` (shutdown_at.py lines 522-558).
`shutdown_option = true` is the SHUTDOWN mode: if the .bat exists, run it;
on `CalledProcessError` (caught) run the fallback with `check=True`, whose
own failure raises and is NOT caught; if the .bat is absent, run the fallback
likewise.  `shutdown_option = false` is HIBERNATE: `os.system`, whose return
status is ignored, so nothing is ever raised. -/
def shutdown (shutdown_option : Bool) (env : PowerEnv) : ShutdownResult :=
  if shutdown_option then
    if env.bat_exists then
      if env.bat_run_ok then ⟨[Cmd.runBat], false⟩
      else ⟨[Cmd.runBat, Cmd.runFallback], !env.fallback_ok⟩
    else ⟨[Cmd.runFallback], !env.fallback_ok⟩
  else ⟨[Cmd.runHibernate], false⟩

/-! ### Properties of `splitDot` -/

theorem splitDot_ne_nil (s : List Char) : splitDot s ≠ [] := by
  induction s with
  | nil => simp [splitDot]
  | cons c cs ih =>
    cases h : splitDot cs with
    | nil => simp [splitDot, h]
    | cons p ps =>
      simp only [splitDot, h]
      split <;> simp

theorem joinDot_splitDot (s : List Char) : joinDot (splitDot s) = s := by
  induction s with
  | nil => rfl
  | cons c cs ih =>
    cases h : splitDot cs with
    | nil => exact absurd h (splitDot_ne_nil cs)
    | cons p ps =>
      rw [h] at ih
      by_cases hc : c = '.'
      · subst hc
        simp only [splitDot, h, if_pos rfl]
        simpa [joinDot] using ih
      · simp only [splitDot, h, if_neg hc]
        cases ps with
        | nil => simpa [joinDot] using ih
        | cons q qs =>
          simp only [joinDot] at ih ⊢
          simpa using ih

theorem not_dot_mem_splitDot (s : List Char) : ∀ p ∈ splitDot s, '.' ∉ p := by
  induction s with
  | nil =>
    intro p hp
    simp [splitDot] at hp
    simp [hp]
  | cons c cs ih =>
    intro p hp
    cases h : splitDot cs with
    | nil => exact absurd h (splitDot_ne_nil cs)
    | cons q qs =>
      rw [h] at ih
      simp only [splitDot, h] at hp
      split at hp
      · rcases List.mem_cons.mp hp with h1 | h1
        · simp [h1]
        · exact ih p h1
      · next hc =>
        rcases List.mem_cons.mp hp with h1 | h1
        · subst h1
          intro hmem
          rcases List.mem_cons.mp hmem with h2 | h2
          · exact hc h2.symm
          · exact ih q (List.mem_cons_self q qs) h2
        · exact ih p (List.mem_cons_of_mem q h1)

theorem mem_of_mem_splitDot (s : List Char) :
    ∀ p ∈ splitDot s, ∀ c ∈ p, c ∈ s := by
  induction s with
  | nil =>
    intro p hp c hc
    simp [splitDot] at hp
    subst hp
    simp at hc
  | cons a as ih =>
    intro p hp c hc
    cases h : splitDot as with
    | nil => exact absurd h (splitDot_ne_nil as)
    | cons q qs =>
      rw [h] at ih
      simp only [splitDot, h] at hp
      split at hp
      · rcases List.mem_cons.mp hp with h1 | h1
        · subst h1
          simp at hc
        · exact List.mem_cons_of_mem a (ih p h1 c hc)
      · rcases List.mem_cons.mp hp with h1 | h1
        · subst h1
          rcases List.mem_cons.mp hc with h2 | h2
          · simp [h2]
          · exact List.mem_cons_of_mem a (ih q (List.mem_cons_self q qs) c h2)
        · exact List.mem_cons_of_mem a (ih p (List.mem_cons_of_mem q h1) c hc)

theorem splitDot_eq_self (p : List Char) (hp : '.' ∉ p) : splitDot p = [p] := by
  induction p with
  | nil => rfl
  | cons c cs ih =>
    have hc : ¬(c = '.') := fun h => hp (by simp [h])
    have hcs : '.' ∉ cs := fun h => hp (List.mem_cons_of_mem _ h)
    simp [splitDot, ih hcs, hc]

theorem splitDot_append_dot (p t : List Char) (hp : '.' ∉ p) :
    splitDot (p ++ '.' :: t) = p :: splitDot t := by
  induction p with
  | nil =>
    obtain ⟨q, qs, h⟩ := List.exists_cons_of_ne_nil (splitDot_ne_nil t)
    simp [splitDot, h]
  | cons c cs ih =>
    have hc : ¬(c = '.') := fun h => hp (by simp [h])
    have hcs : '.' ∉ cs := fun h => hp (List.mem_cons_of_mem _ h)
    simp [splitDot, ih hcs, hc]

theorem isdigitStr_iff (p : List Char) :
    isdigitStr p = true ↔ p ≠ [] ∧ ∀ c ∈ p, c.isDigit = true := by
  simp [isdigitStr, List.isEmpty_iff, List.all_eq_true]

theorem all_congr_mem (p : List Char) (f g : Char → Bool)
    (h : ∀ c ∈ p, f c = g c) : p.all f = p.all g := by
  induction p with
  | nil => rfl
  | cons a as ih =>
    simp only [List.all_cons]
    rw [h a (List.mem_cons_self a as), ih (fun c hc => h c (List.mem_cons_of_mem a hc))]

theorem digit_ne_dot (c : Char) (h : c.isDigit = true) : ¬(c = '.') := by
  intro hc
  subst hc
  exact absurd h (by decide)

/-! ### Properties of `fmt02` and `pyStrLt` -/

theorem digitChar_toNat (d : Nat) (h : d < 10) : (Nat.digitChar d).toNat = 48 + d := by
  interval_cases d <;> decide

theorem digitChar_isDigit (d : Nat) (h : d < 10) : (Nat.digitChar d).isDigit = true := by
  interval_cases d <;> decide

theorem fmt02_no_dot (n : Nat) (h : n < 100) : '.' ∉ fmt02 n := by
  intro hm
  rcases List.mem_cons.mp hm with h1 | h1
  · exact digit_ne_dot _ (digitChar_isDigit (n / 10) (by omega)) h1.symm
  · rcases List.mem_cons.mp h1 with h2 | h2
    · exact digit_ne_dot _ (digitChar_isDigit (n % 10) (by omega)) h2.symm
    · simp at h2

theorem parseNat_fmt02 (n : Nat) (h : n < 100) : parseNat (fmt02 n) = n := by
  unfold parseNat fmt02
  simp only [List.foldl]
  rw [digitChar_toNat (n / 10) (by omega), digitChar_toNat (n % 10) (by omega)]
  omega

theorem pyStrLt_fmtTime (t u : TimeOfDay) (ht : t.valid) (hu : u.valid) :
    pyStrLt (fmtTime t) (fmtTime u) =
      decide (t.hour * 60 + t.minute < u.hour * 60 + u.minute) := by
  obtain ⟨ht1, ht2⟩ := ht
  obtain ⟨hu1, hu2⟩ := hu
  unfold fmtTime fmt02
  simp only [List.cons_append, List.nil_append, pyStrLt]
  rw [digitChar_toNat (t.hour / 10) (by omega), digitChar_toNat (t.hour % 10) (by omega),
    digitChar_toNat (t.minute / 10) (by omega), digitChar_toNat (t.minute % 10) (by omega),
    digitChar_toNat (u.hour / 10) (by omega), digitChar_toNat (u.hour % 10) (by omega),
    digitChar_toNat (u.minute / 10) (by omega), digitChar_toNat (u.minute % 10) (by omega)]
  split_ifs <;> simp_all <;> omega

theorem pyStrLt_irrefl (a : List Char) : pyStrLt a a = false := by
  induction a with
  | nil => rfl
  | cons c cs ih => simp [pyStrLt, ih]

theorem ne_of_pyStrLt {a b : List Char} (h : pyStrLt a b = true) : ¬(b = a) := by
  intro hc
  subst hc
  rw [pyStrLt_irrefl] at h
  exact absurd h (by simp)

/-! ### Characterization of the validator -/

theorem is_valid_time_iff (s : List Char) :
    is_valid_time s = true ↔
      ∃ p0 p1 : List Char, s = p0 ++ '.' :: p1 ∧
        p0 ≠ [] ∧ p1 ≠ [] ∧
        (∀ c ∈ p0, c.isDigit = true) ∧ (∀ c ∈ p1, c.isDigit = true) ∧
        parseNat p0 ≤ 23 ∧ parseNat p1 ≤ 59 := by
  constructor
  · intro h
    unfold is_valid_time at h
    split at h
    · next p0 p1 heq =>
      split at h
      · exact absurd h (by simp)
      · next hnd =>
        have hand : (isdigitStr p0 && isdigitStr p1) = true := by
          revert hnd
          cases isdigitStr p0 <;> cases isdigitStr p1 <;> simp
        obtain ⟨hd0, hd1⟩ := Bool.and_eq_true _ _ |>.mp hand
        have hshape : s = p0 ++ '.' :: p1 := by
          have hj := joinDot_splitDot s
          rw [heq] at hj
          simpa [joinDot] using hj.symm
        obtain ⟨h0ne, h0dig⟩ := (isdigitStr_iff p0).mp hd0
        obtain ⟨h1ne, h1dig⟩ := (isdigitStr_iff p1).mp hd1
        simp only [Bool.and_eq_true, decide_eq_true_eq] at h
        refine ⟨p0, p1, hshape, h0ne, h1ne, h0dig, h1dig, ?_, ?_⟩ <;> omega
    · exact absurd h (by simp)
  · rintro ⟨p0, p1, rfl, h0ne, h1ne, h0dig, h1dig, hb0, hb1⟩
    have hnd0 : '.' ∉ p0 := fun hm => digit_ne_dot _ (h0dig _ hm) rfl
    have hnd1 : '.' ∉ p1 := fun hm => digit_ne_dot _ (h1dig _ hm) rfl
    have hsp : splitDot (p0 ++ '.' :: p1) = [p0, p1] := by
      rw [splitDot_append_dot p0 p1 hnd0, splitDot_eq_self p1 hnd1]
    unfold is_valid_time
    rw [hsp]
    have hd0 : isdigitStr p0 = true := (isdigitStr_iff p0).mpr ⟨h0ne, h0dig⟩
    have hd1 : isdigitStr p1 = true := (isdigitStr_iff p1).mpr ⟨h1ne, h1dig⟩
    simp [hd0, hd1, hb0, hb1]

theorem is_valid_time_checked_agrees (s : List Char)
    (hs : ∀ c ∈ s, pyIsDigit c = Char.isDigit c) :
    is_valid_time_checked s = Except.ok (is_valid_time s) := by
  unfold is_valid_time_checked is_valid_time
  rcases hsp : splitDot s with _ | ⟨p0, _ | ⟨p1, rest⟩⟩
  · rfl
  · rfl
  · cases rest with
    | nil =>
      have hp0 : p0 ∈ splitDot s := by
        rw [hsp]
        exact List.mem_cons_self _ _
      have hp1 : p1 ∈ splitDot s := by
        rw [hsp]
        simp
      have e0 : pyIsDigitStr p0 = isdigitStr p0 := by
        unfold pyIsDigitStr isdigitStr
        rw [all_congr_mem p0 pyIsDigit Char.isDigit
          (fun c hc => hs c (mem_of_mem_splitDot s p0 hp0 c hc))]
      have e1 : pyIsDigitStr p1 = isdigitStr p1 := by
        unfold pyIsDigitStr isdigitStr
        rw [all_congr_mem p1 pyIsDigit Char.isDigit
          (fun c hc => hs c (mem_of_mem_splitDot s p1 hp1 c hc))]
      by_cases hd : (isdigitStr p0 && isdigitStr p1) = true
      · obtain ⟨h0, h1⟩ := Bool.and_eq_true _ _ |>.mp hd
        simp [pyInt?, h0, h1, e0, e1]
      · have hf : (isdigitStr p0 && isdigitStr p1) = false := by
          revert hd
          cases (isdigitStr p0 && isdigitStr p1) <;> simp
        simp [hf, e0, e1]
    | cons p2 ps => rfl

/-! ### Characterization of the two-minute offset -/

theorem fmt_pair_congr (x y : Int) (a b : Nat) (hx : x.toNat = a) (hy : y.toNat = b) :
    fmt02 x.toNat ++ '.' :: fmt02 y.toNat = fmt02 a ++ '.' :: fmt02 b := by
  rw [hx, hy]

theorem get_two_minutes_before_fmt (h m : Nat) (hh : h < 24) (hm : m < 60) :
    get_two_minutes_before (fmt02 h ++ '.' :: fmt02 m) =
      (if 2 ≤ m then fmt02 h ++ '.' :: fmt02 (m - 2)
       else if h = 0 then fmt02 23 ++ '.' :: fmt02 (m + 58)
       else fmt02 (h - 1) ++ '.' :: fmt02 (m + 58)) := by
  have hnd : '.' ∉ fmt02 h := fmt02_no_dot h (by omega)
  have hnd2 : '.' ∉ fmt02 m := fmt02_no_dot m (by omega)
  unfold get_two_minutes_before
  rw [splitDot_append_dot _ _ hnd, splitDot_eq_self _ hnd2]
  simp only [List.getD_cons_zero, List.getD_cons_succ]
  rw [parseNat_fmt02 h (by omega), parseNat_fmt02 m (by omega)]
  split_ifs <;> exact fmt_pair_congr _ _ _ _ (by omega) (by omega)

theorem minusMinutes_two (t : TimeOfDay) (ht : t.valid) :
    minusMinutes t 2 =
      (if 2 ≤ t.minute then ⟨t.hour, t.minute - 2⟩
       else if t.hour = 0 then ⟨23, t.minute + 58⟩
       else ⟨t.hour - 1, t.minute + 58⟩) := by
  obtain ⟨h1, h2⟩ := ht
  split_ifs <;> (simp only [minusMinutes, TimeOfDay.mk.injEq]; omega)

theorem gtmb_eq_minusMinutes (t : TimeOfDay) (ht : t.valid) :
    get_two_minutes_before (fmtTime t) = fmtTime (minusMinutes t 2) := by
  obtain ⟨h1, h2⟩ := ht
  show get_two_minutes_before (fmt02 t.hour ++ '.' :: fmt02 t.minute) = _
  rw [get_two_minutes_before_fmt t.hour t.minute (by omega) (by omega),
    minusMinutes_two t ⟨h1, h2⟩]
  split_ifs <;> rfl

/-! ### Properties of one tick -/

theorem check_time_event_fired_iff (st : SchedState) (c : List Char) :
    (check_time_step st c).event = TickEvent.fired ↔ pyStrGe c st.shutdown_time = true := by
  unfold check_time_step
  split_ifs <;> simp_all

theorem check_time_step_ge (st : SchedState) (c : List Char)
    (h : pyStrGe c st.shutdown_time = true) :
    check_time_step st c = ⟨TickEvent.fired, st, true⟩ := by
  unfold check_time_step
  rw [if_pos h]

theorem check_time_step_quiet (st : SchedState) (c : List Char)
    (h1 : ¬(pyStrGe c st.shutdown_time = true))
    (h2 : ¬(c = get_two_minutes_before st.shutdown_time)) :
    check_time_step st c = ⟨TickEvent.quiet, st, true⟩ := by
  unfold check_time_step
  rw [if_neg h1, if_neg (fun hand => h2 hand.1)]

theorem run_ticks_after_warning_instant (target : List Char) (w : Bool) :
    ∀ cs : List (List Char),
      (∀ c ∈ cs, pyStrLt (get_two_minutes_before target) c = true) →
      (run_ticks ⟨target, w⟩ cs).1 =
        cs.map (fun c => if pyStrGe c target = true then TickEvent.fired
          else TickEvent.quiet) := by
  intro cs
  induction cs with
  | nil => intro _; rfl
  | cons c cs ih =>
    intro hcs
    have hc := hcs c (List.mem_cons_self c cs)
    have hrest : ∀ x ∈ cs, pyStrLt (get_two_minutes_before target) x = true :=
      fun x hx => hcs x (List.mem_cons_of_mem c hx)
    have hne : ¬(c = get_two_minutes_before target) := ne_of_pyStrLt hc
    by_cases hge : pyStrGe c target = true
    · simp only [run_ticks, check_time_step_ge ⟨target, w⟩ c hge, List.map_cons, if_pos hge]
      rw [ih hrest]
    · simp only [run_ticks, check_time_step_quiet ⟨target, w⟩ c hge hne, List.map_cons,
        if_neg hge]
      rw [ih hrest]

/-! ### Claims -/

/-- C1, counterexample: with target "10.00" and current time "10.00" the tick
invokes the power action, yet the tick re-registers itself
(`rescheduled = true`) and the very next tick at the same current time
invokes the power action again.  The claimed terminal FIRED state with no
further ticks and no duplicate invocation does not exist in the code. -/
theorem C1_fired_not_terminal_cex :
    (check_time_step ⟨"10.00".data, false⟩ "10.00".data).event = TickEvent.fired ∧
    (check_time_step ⟨"10.00".data, false⟩ "10.00".data).rescheduled = true ∧
    (check_time_step (check_time_step ⟨"10.00".data, false⟩ "10.00".data).state
      "10.00".data).event = TickEvent.fired := by decide

/-- C1, amended: every tick re-registers itself unconditionally, including the
tick that invokes the power action; that tick leaves the stored state
unchanged, and every subsequent tick whose current time compares `>=` the
target invokes the power action again.  There is no terminal FIRED state. -/
theorem C1_refire_after_fired :
    (∀ (st : SchedState) (c : List Char), (check_time_step st c).rescheduled = true) ∧
    (∀ (st : SchedState) (c : List Char),
      (check_time_step st c).event = TickEvent.fired → (check_time_step st c).state = st) ∧
    (∀ (st : SchedState) (c c2 : List Char),
      (check_time_step st c).event = TickEvent.fired →
      pyStrGe c2 st.shutdown_time = true →
      (check_time_step (check_time_step st c).state c2).event = TickEvent.fired) := by
  refine ⟨?_, ?_, ?_⟩
  · intro st c
    unfold check_time_step
    split_ifs <;> rfl
  · intro st c h
    unfold check_time_step at h ⊢
    split_ifs at h ⊢
    all_goals simp_all
  · intro st c c2 h hge
    have hst : (check_time_step st c).state = st := by
      unfold check_time_step at h ⊢
      split_ifs at h ⊢
      all_goals simp_all
    rw [hst, check_time_event_fired_iff]
    exact hge

/-- Witness for C1, amended: a concrete fired tick at "10.00", followed by a
tick at "10.01", fires again. -/
theorem C1_refire_after_fired_witness :
    (check_time_step ⟨"10.00".data, false⟩ "10.00".data).event = TickEvent.fired ∧
    pyStrGe "10.01".data "10.00".data = true ∧
    (check_time_step (check_time_step ⟨"10.00".data, false⟩ "10.00".data).state
      "10.01".data).event = TickEvent.fired :=
  ⟨by decide, by decide, C1_refire_after_fired.2.2 _ _ _ (by decide) (by decide)⟩

/-- C2: `is_valid_time` accepts a string exactly when it is two dot-separated
non-empty digit strings whose values are at most 23 and 59; in particular
"09.05" and "9.5" are accepted (denoting hour 9, minute 5) while "24.00",
"09-05" and "" are rejected. -/
theorem C2_validator_spec :
    (∀ s : List Char, is_valid_time s = true ↔
      ∃ p0 p1 : List Char, s = p0 ++ '.' :: p1 ∧
        p0 ≠ [] ∧ p1 ≠ [] ∧
        (∀ c ∈ p0, c.isDigit = true) ∧ (∀ c ∈ p1, c.isDigit = true) ∧
        parseNat p0 ≤ 23 ∧ parseNat p1 ≤ 59) ∧
    is_valid_time "09.05".data = true ∧ parseNat "09".data = 9 ∧ parseNat "05".data = 5 ∧
    is_valid_time "9.5".data = true ∧ parseNat "9".data = 9 ∧ parseNat "5".data = 5 ∧
    is_valid_time "24.00".data = false ∧
    is_valid_time "09-05".data = false ∧
    is_valid_time "".data = false :=
  ⟨is_valid_time_iff, by decide⟩

/-- C3, counterexample: the target "9.5" is accepted by the validator and
denotes hour 9, minute 5; at current wall-clock time 9:05 the zero-padded
current string is "09.05" and `currentTime ≥ target` holds as times of day,
so the claim predicts a FIRED transition; but the code compares the
zero-padded current string against the RAW target string, "09.05" >= "9.5"
is false in string order, and the tick does not fire. -/
theorem C3_padding_cex :
    is_valid_time "9.5".data = true ∧
    parseNat "9".data = 9 ∧ parseNat "5".data = 5 ∧
    fmtTime ⟨9, 5⟩ = "09.05".data ∧
    9 * 60 + 5 ≥ 9 * 60 + 5 ∧
    ¬((check_time_step ⟨"9.5".data, false⟩ (fmtTime ⟨9, 5⟩)).event = TickEvent.fired) := by
  decide

/-- C3, amended: on each tick the scheduler fires exactly when the zero-padded
current time string compares `>=` the raw target string as entered by the
user; when the target is itself zero-padded (rendered by `fmtTime`), this
coincides with `currentTime ≥ target` as times of day. -/
theorem C3_fire_condition :
    (∀ (st : SchedState) (c : List Char),
      ((check_time_step st c).event = TickEvent.fired ↔ pyStrGe c st.shutdown_time = true)) ∧
    (∀ (t ct : TimeOfDay) (w : Bool), t.valid → ct.valid →
      ((check_time_step ⟨fmtTime t, w⟩ (fmtTime ct)).event = TickEvent.fired ↔
        t.hour * 60 + t.minute ≤ ct.hour * 60 + ct.minute)) := by
  refine ⟨check_time_event_fired_iff, ?_⟩
  intro t ct w ht hct
  rw [check_time_event_fired_iff]
  show (!pyStrLt (fmtTime ct) (fmtTime t)) = true ↔ _
  rw [pyStrLt_fmtTime ct t hct ht]
  simp [Nat.not_lt]

/-- Witness for C3, amended: target 10:00, current time 10:00, the tick fires. -/
theorem C3_fire_condition_witness :
    TimeOfDay.valid ⟨10, 0⟩ ∧
    ((check_time_step ⟨fmtTime ⟨10, 0⟩, false⟩ (fmtTime ⟨10, 0⟩)).event = TickEvent.fired ↔
      10 * 60 + 0 ≤ 10 * 60 + 0) :=
  ⟨by decide, C3_fire_condition.2 ⟨10, 0⟩ ⟨10, 0⟩ false (by decide) (by decide)⟩

/-- C4: in SHUTDOWN mode the OS-native fallback command is invoked exactly
once when the primary .bat path is absent or its invocation fails, and not at
all when the primary invocation succeeds. -/
theorem C4_shutdown_fallback :
    ∀ env : PowerEnv,
      (shutdown true env).invoked.count Cmd.runFallback =
        (if env.bat_exists && env.bat_run_ok then 0 else 1) := by
  rintro ⟨be, br, fo, ho⟩
  cases be <;> cases br <;> cases fo <;> cases ho <;> decide

/-- C5, counterexample: when the fallback command itself fails, the
`CalledProcessError` raised by its `check=True` invocation is NOT caught
inside `shutdown` and propagates out, both when the primary .bat is missing
and when it exists but fails.  This refutes the claim that no action error
ever propagates out of the power action. -/
theorem C5_uncaught_fallback_cex :
    (shutdown true ⟨false, true, false, true⟩).raised = true ∧
    (shutdown true ⟨true, false, false, true⟩).raised = true := by decide

/-- C5, amended: a failure of the primary .bat invocation is caught at the
power-action boundary (it only triggers the fallback), and `os.system` in
HIBERNATE mode never raises; but an exception escapes `shutdown` exactly
when SHUTDOWN mode reaches the fallback and the fallback command fails. -/
theorem C5_raise_condition :
    ∀ (shutdown_option : Bool) (env : PowerEnv),
      (shutdown shutdown_option env).raised =
        (shutdown_option && !(env.bat_exists && env.bat_run_ok) && !env.fallback_ok) := by
  rintro opt ⟨be, br, fo, ho⟩
  cases opt <;> cases be <;> cases br <;> cases fo <;> cases ho <;> decide

/-- C6: with target "10.00" (and the fixed two-minute warning lead of the
code), ticking minute-by-minute from 09:57 to 10:00 produces the event trace
quiet, warned, quiet, fired: exactly one warning, at 09:58, and exactly one
firing, at 10:00, with no warning repeated after the warned state. -/
theorem C6_warning_then_fire_trace :
    run_ticks ⟨"10.00".data, false⟩
        ["09.57".data, "09.58".data, "09.59".data, "10.00".data] =
      ([TickEvent.quiet, TickEvent.warned, TickEvent.quiet, TickEvent.fired],
        ⟨"10.00".data, true⟩) := by decide

/-- C7: the two-minute subtraction of the code agrees with the general
`minusMinutes` at n = 2, whose value on valid times is exactly the claimed
adjustment (borrow 60 minutes and decrement the hour when the minute goes
negative, wrap hour -1 to 23); concretely "00.01" maps to "23.59". -/
theorem C7_two_minutes_before :
    (∀ t : TimeOfDay, t.valid →
      get_two_minutes_before (fmtTime t) = fmtTime (minusMinutes t 2) ∧
      minusMinutes t 2 =
        (if 2 ≤ t.minute then ⟨t.hour, t.minute - 2⟩
         else if t.hour = 0 then ⟨23, t.minute + 58⟩
         else ⟨t.hour - 1, t.minute + 58⟩)) ∧
    get_two_minutes_before "00.01".data = "23.59".data :=
  ⟨fun t ht => ⟨gtmb_eq_minusMinutes t ht, minusMinutes_two t ht⟩, by decide⟩

/-- Witness for C7: the concrete time 00:01 of the claim. -/
theorem C7_two_minutes_before_witness :
    TimeOfDay.valid ⟨0, 1⟩ ∧
    get_two_minutes_before (fmtTime ⟨0, 1⟩) = fmtTime (minusMinutes ⟨0, 1⟩ 2) :=
  ⟨by decide, (C7_two_minutes_before.1 ⟨0, 1⟩ (by decide)).1⟩

/-- C8: for every valid time and every n < 1440, `minusMinutes` keeps both
fields in range and the full-day round trip returns the original time. -/
theorem C8_minusMinutes_range_roundtrip :
    ∀ (t : TimeOfDay) (n : Nat), t.valid → n < 1440 →
      (minusMinutes t n).valid ∧ minusMinutes (minusMinutes t n) (1440 - n) = t := by
  rintro ⟨h, m⟩ n ⟨hh, hm⟩ hn
  have hh2 : h ≤ 23 := hh
  have hm2 : m ≤ 59 := hm
  simp only [minusMinutes, TimeOfDay.valid, TimeOfDay.mk.injEq]
  omega

/-- Witness for C8: t = 00:01, n = 2. -/
theorem C8_minusMinutes_range_roundtrip_witness :
    TimeOfDay.valid ⟨0, 1⟩ ∧ 2 < 1440 ∧
    ((minusMinutes ⟨0, 1⟩ 2).valid ∧
      minusMinutes (minusMinutes ⟨0, 1⟩ 2) (1440 - 2) = ⟨0, 1⟩) :=
  ⟨by decide, by decide, C8_minusMinutes_range_roundtrip ⟨0, 1⟩ 2 (by decide) (by decide)⟩

/-- C9, failing input: the superscript-two character U+00B2 passes the
`str.isdigit` guard, so the input "²².05" splits into two guard-passing
parts and reaches the `int()` branch, where `int("²²")` raises an uncaught
`ValueError`: the validator does not return a boolean verdict on this input,
contradicting the claim and the spec sentence that it must not throw for
malformed input. -/
theorem C9_superscript_throws :
    pyIsDigitStr "²²".data = true ∧
    pyInt? "²²".data = none ∧
    is_valid_time_checked "²².05".data = Except.error "ValueError" := ⟨rfl, rfl, rfl⟩

/-- C10: the reached-target branch is evaluated before the warning branch, so
any tick with `currentTime >= target` fires — including the concrete tick at
"23.59" against target "00.01", where the warning condition holds
simultaneously and only the fire occurs; and a schedule whose every sampled
tick time is strictly past the warning instant never emits a warning: each
tick fires when `>=` the target and is otherwise a no-op. -/
theorem C10_fire_priority :
    (∀ (st : SchedState) (c : List Char),
      pyStrGe c st.shutdown_time = true → (check_time_step st c).event = TickEvent.fired) ∧
    (pyStrGe "23.59".data "00.01".data = true ∧
      "23.59".data = get_two_minutes_before "00.01".data ∧
      (check_time_step ⟨"00.01".data, false⟩ "23.59".data).event = TickEvent.fired) ∧
    (∀ (target : List Char) (w : Bool) (cs : List (List Char)),
      (∀ c ∈ cs, pyStrLt (get_two_minutes_before target) c = true) →
      (run_ticks ⟨target, w⟩ cs).1 =
        cs.map (fun c => if pyStrGe c target = true then TickEvent.fired
          else TickEvent.quiet)) := by
  refine ⟨?_, by decide, ?_⟩
  · intro st c h
    rw [check_time_event_fired_iff]
    exact h
  · intro target w cs hcs
    exact run_ticks_after_warning_instant target w cs hcs

/-- Witness for C10: a tick at the target fires; a two-tick run armed one
minute before a 10:00 target (strictly past the 09:58 warning instant)
produces no warning and fires at 10:00. -/
theorem C10_fire_priority_witness :
    pyStrGe "10.00".data "10.00".data = true ∧
    (check_time_step ⟨"10.00".data, false⟩ "10.00".data).event = TickEvent.fired ∧
    (run_ticks ⟨"10.00".data, false⟩ ["09.59".data, "10.00".data]).1 =
      [TickEvent.quiet, TickEvent.fired] :=
  ⟨by decide, C10_fire_priority.1 _ _ (by decide), by
    rw [C10_fire_priority.2.2 "10.00".data false ["09.59".data, "10.00".data] (by decide)]
    decide⟩

end ShutdownAt
